import Mathlib

/-!
Verification of the Harappan-script PDF maker (`app.py`).

The repository's only logic is the function `generate_pdf`, which
(1) parses a raw `_`-delimited string into a list of integer indices and
(2) runs a single-pass flow-layout over those indices, placing one image
per index with line wraps and page breaks.

We embed both parts shallowly:

* Strings are `List Char`; `pyStrip`, `pySplit`, `pyIsDigit` model the
  Python `str.strip`, `str.split('_')` and `str.isdigit` operations used
  on line 28 of `app.py`.
* Page coordinates are exact rationals (`ℚ`), standing for the Python
  floats; the engine state carries the cursor `x`, `y`, `line_height`,
  the current page number, the list of emitted placements and the list
  of per-index diagnostics.
* The file system and the image decoder are abstracted into an
  environment `assets : Nat → AssetResult` telling, for each index,
  whether `{index}.png` is missing, unreadable, or an image of natural
  pixel size `(w, h)`.  A readable image with `w = 0` or `h = 0` makes
  the aspect-ratio arithmetic on lines 50-52 raise a division error,
  which the `except` block turns into a skip, so the embedding folds
  that case into the unreadable branch.
* The PDF backend (`fpdf`) is abstracted: `pdf.add_page()` increments a
  page counter, `pdf.image(...)` appends a `Placement`, and the final
  byte serialization is represented by returning the engine state.
-/

namespace HarappanPDF

/-! ## Index parser (line 28 of `app.py`) -/

/-- The ASCII whitespace characters removed by Python's `str.strip()`. -/
def pyWhitespaceChar (c : Char) : Bool :=
  c = ' ' || c = '\t' || c = '\n' || c = '\r' || c = '\x0b' || c = '\x0c'

/-- Python `s.strip()`: remove leading and trailing whitespace. -/
def pyStrip (s : List Char) : List Char :=
  ((s.dropWhile pyWhitespaceChar).reverse.dropWhile pyWhitespaceChar).reverse

/-- Python `s.split(d)` for a one-character separator `d`: split at every
occurrence of `d`, keeping empty tokens (so `"_".split('_') = ["", ""]`
and `"".split('_') = [""]`). -/
def pySplit (d : Char) : List Char → List (List Char)
  | [] => [[]]
  | c :: cs =>
    if c = d then [] :: pySplit d cs
    else
      match pySplit d cs with
      | t :: ts => (c :: t) :: ts
      | [] => [[c]]

/-- Python `s.isdigit()` restricted to ASCII: `s` is non-empty and every
character is a decimal digit. -/
def pyIsDigit (s : List Char) : Bool :=
  !s.isEmpty && s.all Char.isDigit

/-- Python `int(s)` on a string of decimal digits. -/
def digitsToNat (s : List Char) : Nat :=
  s.foldl (fun acc c => 10 * acc + (c.toNat - 48)) 0

/-- Line 28 of `app.py`:
`indices = [int(s) for s in input_string.strip().split('_') if s.isdigit()]`. -/
def parseIndices (s : List Char) : List Nat :=
  ((pySplit '_' (pyStrip s)).filter pyIsDigit).map digitsToNat

/-! ## Flow layout engine (lines 36-76 of `app.py`) -/

/-- The geometric parameters of one `generate_pdf` call, with the names of
the Python keyword arguments. -/
structure LayoutParams where
  x_start : ℚ
  y_start : ℚ
  max_width : ℚ
  max_height : ℚ
  image_width : ℚ
  h_gap : ℚ
  v_gap : ℚ
  deriving DecidableEq, Repr

/-- What resolving `{folder}/{index}.png` yields: the file is missing
(`os.path.exists` is false), unreadable (`cv2.imread`/shape unpacking
raises), or an image with natural pixel width `w` and height `h`. -/
inductive AssetResult where
  | missing
  | unreadable
  | image (w h : Nat)
  deriving DecidableEq, Repr

/-- A non-fatal per-index diagnostic (`st.warning` on lines 54 and 73). -/
inductive Diagnostic where
  | missingAsset (index : Nat)
  | unreadableAsset (index : Nat)
  deriving DecidableEq, Repr

/-- One emitted `pdf.image(image_path, x, y, new_width, new_height)` call,
together with the page it lands on. -/
structure Placement where
  page : Nat
  x : ℚ
  y : ℚ
  w : ℚ
  h : ℚ
  deriving DecidableEq, Repr

/-- The engine state threaded through the loop of `generate_pdf`: the
mutable cursor `x`, `y`, `line_height`, the current page number of the
`FPDF` object, the placements emitted so far, and the accumulated
warnings. -/
structure EngineState where
  x : ℚ
  y : ℚ
  line_height : ℚ
  page : Nat
  placements : List Placement
  diags : List Diagnostic
  deriving DecidableEq, Repr

/-- Lines 36-40 of `app.py`: a fresh `FPDF` with one page added and the
cursor at `(x_start, y_start)` with `line_height = 0`. -/
def initState (P : LayoutParams) : EngineState :=
  { x := P.x_start, y := P.y_start, line_height := 0, page := 1,
    placements := [], diags := [] }

/-- Lines 57-61 of `app.py`: if adding the image exceeds the page width,
move to the next line. -/
def wrapStep (P : LayoutParams) (st : EngineState) (new_width : ℚ) : EngineState :=
  if st.x + new_width > P.x_start + P.max_width then
    { st with x := P.x_start, y := st.y + st.line_height + P.v_gap, line_height := 0 }
  else st

/-- Lines 63-67 of `app.py`: if adding the image exceeds the page height,
create a new page. -/
def pageBreakStep (P : LayoutParams) (st : EngineState) (new_height : ℚ) : EngineState :=
  if st.y + new_height > P.y_start + P.max_height then
    { st with page := st.page + 1, x := P.x_start, y := P.y_start, line_height := 0 }
  else st

/-- Lines 69-71 of `app.py`: emit the placement, advance the cursor by
`new_width + h_gap`, and fold the height into `line_height`. -/
def placeStep (P : LayoutParams) (st : EngineState) (new_width new_height : ℚ) :
    EngineState :=
  { st with
    placements := st.placements ++ [⟨st.page, st.x, st.y, new_width, new_height⟩],
    x := st.x + new_width + P.h_gap,
    line_height := max st.line_height new_height }

/-- Lines 42-73 of `app.py`: the body of `for index in indices`.  A
missing file warns and skips; an unreadable file (including `w = 0` or
`h = 0`, where lines 50-52 raise a `ZeroDivisionError` caught on line
53) warns and skips; otherwise the image is laid out at fixed width
`image_width` and derived height `new_width / aspect_ratio`. -/
def processIndex (P : LayoutParams) (assets : Nat → AssetResult)
    (st : EngineState) (index : Nat) : EngineState :=
  match assets index with
  | .missing => { st with diags := st.diags ++ [.missingAsset index] }
  | .unreadable => { st with diags := st.diags ++ [.unreadableAsset index] }
  | .image w h =>
    if w = 0 ∨ h = 0 then
      { st with diags := st.diags ++ [.unreadableAsset index] }
    else
      let aspect_ratio : ℚ := (w : ℚ) / (h : ℚ)
      let new_width : ℚ := P.image_width
      let new_height : ℚ := new_width / aspect_ratio
      placeStep P (pageBreakStep P (wrapStep P st new_width) new_height)
        new_width new_height

/-- The whole of `generate_pdf` (lines 7-76 of `app.py`).  `none` models
the `return None` taken when no valid index survives parsing (the
`EmptyInput` outcome); otherwise the loop runs over every parsed index
and the final engine state stands for the serialized byte buffer. -/
def generate_pdf (input_string : List Char) (assets : Nat → AssetResult)
    (P : LayoutParams) : Option EngineState :=
  let indices := parseIndices input_string
  if indices.isEmpty then none
  else some (indices.foldl (processIndex P assets) (initState P))

/-! ## Derived definitions used by the verification -/

/-- Spec-style reading of the parser: walk the token list once, testing
each token independently and dropping the bad ones.  Compared below with
`parseIndices`, which comes from the comprehension on line 28. -/
def parseTokens : List (List Char) → List Nat
  | [] => []
  | t :: ts => if pyIsDigit t then digitsToNat t :: parseTokens ts else parseTokens ts

/-- Relation between two consecutively emitted placements: either the
second continues the row, exactly `h_gap` after the first, or it starts
a new row on the same page at `x = x_start`, or it opens the next page
at `(x_start, y_start)`. -/
def rowChain (P : LayoutParams) (q p : Placement) : Prop :=
  (p.page = q.page ∧ p.y = q.y ∧ p.x = q.x + q.w + P.h_gap) ∨
  (p.page = q.page ∧ p.x = P.x_start) ∨
  (p.page = q.page + 1 ∧ p.x = P.x_start ∧ p.y = P.y_start)

/-- Invariant tying the engine cursor to the placements emitted so far:
a pristine cursor while nothing has been placed, a cursor exactly
`h_gap` past the most recent placement afterwards, adjacent placements
related by `rowChain`, and a first placement at `x_start` (and, when the
fixed image width fits the writable width, at `y_start`). -/
def cursorInv (P : LayoutParams) (st : EngineState) : Prop :=
  (st.placements = [] → st.x = P.x_start ∧ st.y = P.y_start ∧ st.page = 1) ∧
  (∀ q, st.placements.getLast? = some q →
    st.x = q.x + q.w + P.h_gap ∧ st.y = q.y ∧ st.page = q.page) ∧
  List.Chain' (rowChain P) st.placements ∧
  (∀ p, st.placements.head? = some p →
    p.x = P.x_start ∧ (P.image_width ≤ P.max_width → p.y = P.y_start))

/-! ## Helper lemmas -/

@[simp] theorem wrapStep_placements (P : LayoutParams) (st : EngineState) (nw : ℚ) :
    (wrapStep P st nw).placements = st.placements := by
  unfold wrapStep; split <;> rfl

@[simp] theorem wrapStep_page (P : LayoutParams) (st : EngineState) (nw : ℚ) :
    (wrapStep P st nw).page = st.page := by
  unfold wrapStep; split <;> rfl

@[simp] theorem pageBreakStep_placements (P : LayoutParams) (st : EngineState) (nh : ℚ) :
    (pageBreakStep P st nh).placements = st.placements := by
  unfold pageBreakStep; split <;> rfl

@[simp] theorem placeStep_placements (P : LayoutParams) (st : EngineState) (nw nh : ℚ) :
    (placeStep P st nw nh).placements =
      st.placements ++ [⟨st.page, st.x, st.y, nw, nh⟩] := rfl

@[simp] theorem placeStep_x (P : LayoutParams) (st : EngineState) (nw nh : ℚ) :
    (placeStep P st nw nh).x = st.x + nw + P.h_gap := rfl

@[simp] theorem placeStep_y (P : LayoutParams) (st : EngineState) (nw nh : ℚ) :
    (placeStep P st nw nh).y = st.y := rfl

@[simp] theorem placeStep_page (P : LayoutParams) (st : EngineState) (nw nh : ℚ) :
    (placeStep P st nw nh).page = st.page := rfl

theorem processIndex_image (P : LayoutParams) (assets : Nat → AssetResult)
    (st : EngineState) (index w h : Nat) (ha : assets index = .image w h)
    (hwh : ¬(w = 0 ∨ h = 0)) :
    processIndex P assets st index =
      placeStep P
        (pageBreakStep P (wrapStep P st P.image_width)
          (P.image_width / ((w : ℚ) / (h : ℚ))))
        P.image_width (P.image_width / ((w : ℚ) / (h : ℚ))) := by
  simp [processIndex, ha, hwh]

theorem wrapStep_or (P : LayoutParams) (st : EngineState) (nw : ℚ) :
    wrapStep P st nw = st ∨
      wrapStep P st nw =
        { st with x := P.x_start, y := st.y + st.line_height + P.v_gap,
                  line_height := 0 } := by
  unfold wrapStep; split
  · exact Or.inr rfl
  · exact Or.inl rfl

theorem wrapStep_of_not_gt (P : LayoutParams) (st : EngineState) (nw : ℚ)
    (h : ¬ st.x + nw > P.x_start + P.max_width) : wrapStep P st nw = st := by
  unfold wrapStep; rw [if_neg h]

theorem pageBreakStep_or (P : LayoutParams) (st : EngineState) (nh : ℚ) :
    pageBreakStep P st nh = st ∨
      pageBreakStep P st nh =
        { st with page := st.page + 1, x := P.x_start, y := P.y_start,
                  line_height := 0 } := by
  unfold pageBreakStep; split
  · exact Or.inr rfl
  · exact Or.inl rfl

theorem filter_map_eq_parseTokens (l : List (List Char)) :
    (l.filter pyIsDigit).map digitsToNat = parseTokens l := by
  induction l with
  | nil => rfl
  | cons t ts ih =>
    by_cases h : pyIsDigit t <;> simp [parseTokens, List.filter_cons, h, ih]

theorem generate_pdf_eq_none_iff (s : List Char) (assets : Nat → AssetResult)
    (P : LayoutParams) :
    generate_pdf s assets P = none ↔ parseIndices s = [] := by
  simp only [generate_pdf]
  split <;> simp_all [List.isEmpty_iff]

theorem generate_pdf_eq_some (s : List Char) (assets : Nat → AssetResult)
    (P : LayoutParams) (r : EngineState) (hr : generate_pdf s assets P = some r) :
    r = (parseIndices s).foldl (processIndex P assets) (initState P) := by
  simp only [generate_pdf] at hr
  split at hr
  · exact absurd hr (by simp)
  · exact (Option.some.inj hr).symm

theorem foldl_placements_width (P : LayoutParams) (assets : Nat → AssetResult)
    (l : List Nat) (st : EngineState)
    (h : ∀ p ∈ st.placements, p.w = P.image_width) :
    ∀ p ∈ (l.foldl (processIndex P assets) st).placements, p.w = P.image_width := by
  induction l generalizing st with
  | nil => exact h
  | cons i is ih =>
    rw [List.foldl_cons]
    refine ih (processIndex P assets st i) ?_
    intro p hp
    cases ha : assets i with
    | missing => simp only [processIndex, ha] at hp; exact h p hp
    | unreadable => simp only [processIndex, ha] at hp; exact h p hp
    | image w hh =>
      by_cases hwh : w = 0 ∨ hh = 0
      · simp only [processIndex, ha, if_pos hwh] at hp; exact h p hp
      · rw [processIndex_image P assets st i w hh ha hwh] at hp
        simp only [placeStep_placements, pageBreakStep_placements, wrapStep_placements,
          List.mem_append, List.mem_singleton] at hp
        rcases hp with hp | rfl
        · exact h p hp
        · rfl

theorem foldl_all_skipped (P : LayoutParams) (assets : Nat → AssetResult)
    (l : List Nat) (st : EngineState)
    (h : ∀ i ∈ l, assets i = .missing ∨ assets i = .unreadable) :
    ∃ ds : List Diagnostic,
      l.foldl (processIndex P assets) st = { st with diags := st.diags ++ ds } := by
  induction l generalizing st with
  | nil => exact ⟨[], by simp⟩
  | cons i is ih =>
    rw [List.foldl_cons]
    rcases h i (List.mem_cons_self i is) with hm | hu
    · obtain ⟨ds, hds⟩ := ih { st with diags := st.diags ++ [.missingAsset i] }
        (fun j hj => h j (List.mem_cons_of_mem i hj))
      refine ⟨.missingAsset i :: ds, ?_⟩
      rw [show processIndex P assets st i =
        { st with diags := st.diags ++ [.missingAsset i] } by simp [processIndex, hm]]
      rw [hds]
      simp
    · obtain ⟨ds, hds⟩ := ih { st with diags := st.diags ++ [.unreadableAsset i] }
        (fun j hj => h j (List.mem_cons_of_mem i hj))
      refine ⟨.unreadableAsset i :: ds, ?_⟩
      rw [show processIndex P assets st i =
        { st with diags := st.diags ++ [.unreadableAsset i] } by simp [processIndex, hu]]
      rw [hds]
      simp

theorem processIndex_length_page (P : LayoutParams) (assets : Nat → AssetResult)
    (st : EngineState) (i : Nat) :
    (processIndex P assets st i).placements.length ≤ st.placements.length + 1 ∧
    (processIndex P assets st i).page ≤ st.page + 1 := by
  cases ha : assets i with
  | missing => simp [processIndex, ha, Nat.le_succ]
  | unreadable => simp [processIndex, ha, Nat.le_succ]
  | image w hh =>
    by_cases hwh : w = 0 ∨ hh = 0
    · simp [processIndex, ha, if_pos hwh, Nat.le_succ]
    · rw [processIndex_image P assets st i w hh ha hwh]
      constructor
      · simp
      · rcases pageBreakStep_or P (wrapStep P st P.image_width)
          (P.image_width / ((w : ℚ) / (hh : ℚ))) with he | he <;>
          simp [he, Nat.le_succ]

theorem foldl_length_bound (P : LayoutParams) (assets : Nat → AssetResult)
    (l : List Nat) (st : EngineState) :
    (l.foldl (processIndex P assets) st).placements.length ≤
      st.placements.length + l.length := by
  induction l generalizing st with
  | nil => simp
  | cons i is ih =>
    rw [List.foldl_cons]
    have h1 := ih (processIndex P assets st i)
    have h2 := (processIndex_length_page P assets st i).1
    simp only [List.length_cons]
    omega

theorem generate_pdf_isSome (s : List Char) (assets : Nat → AssetResult)
    (P : LayoutParams) (h : parseIndices s ≠ []) :
    (generate_pdf s assets P).isSome = true := by
  simp only [generate_pdf]
  split <;> simp_all [List.isEmpty_iff]

/-! ## Claims -/

/-- C1: during the processing of an image, the line-wrap test uses strict
inequality: when the cursor `x` plus the rendered width strictly exceeds
`x_start + max_width`, the cursor is reset to `x = x_start`, `y` is
advanced by `line_height + v_gap`, and `line_height` is reset to `0`;
when `x + new_width` equals `x_start + max_width` exactly, no wrap
occurs and the state is unchanged. -/
theorem C1_line_wrap_strict_boundary (P : LayoutParams) (st : EngineState) (nw : ℚ) :
    (st.x + nw > P.x_start + P.max_width →
      wrapStep P st nw =
        { st with x := P.x_start, y := st.y + st.line_height + P.v_gap, line_height := 0 }) ∧
    (st.x + nw = P.x_start + P.max_width → wrapStep P st nw = st) := by
  refine ⟨fun h => ?_, fun h => ?_⟩
  · simp [wrapStep, h]
  · simp [wrapStep, h]

theorem C1_witness :
    wrapStep ⟨0, 0, 100, 1000, 50, 0, 5⟩ ⟨60, 7, 3, 1, [], []⟩ 50 =
      { x := 0, y := 7 + 3 + 5, line_height := 0, page := 1,
        placements := [], diags := [] } ∧
    wrapStep ⟨0, 0, 100, 1000, 50, 0, 5⟩ ⟨50, 7, 3, 1, [], []⟩ 50 =
      ⟨50, 7, 3, 1, [], []⟩ := by
  constructor
  · exact (C1_line_wrap_strict_boundary ⟨0, 0, 100, 1000, 50, 0, 5⟩
      ⟨60, 7, 3, 1, [], []⟩ 50).1 (by norm_num)
  · exact (C1_line_wrap_strict_boundary ⟨0, 0, 100, 1000, 50, 0, 5⟩
      ⟨50, 7, 3, 1, [], []⟩ 50).2 (by norm_num)

/-- C2: the page-break test uses strict inequality (`y + new_height`
strictly above `y_start + max_height` starts a new page and resets the
cursor to `(x_start, y_start)` with `line_height = 0`; exact equality
does not break), and in `processIndex` it is evaluated on the state
already transformed by the line-wrap step of the same iteration, so a
page break can immediately follow a line wrap while processing one
image. -/
theorem C2_page_break_strict_after_wrap (P : LayoutParams) (st : EngineState) (nh : ℚ) :
    (st.y + nh > P.y_start + P.max_height →
      pageBreakStep P st nh =
        { st with page := st.page + 1, x := P.x_start, y := P.y_start, line_height := 0 }) ∧
    (st.y + nh = P.y_start + P.max_height → pageBreakStep P st nh = st) ∧
    (∀ (assets : Nat → AssetResult) (index w h : Nat),
      assets index = .image w h → ¬(w = 0 ∨ h = 0) →
      processIndex P assets st index =
        placeStep P
          (pageBreakStep P (wrapStep P st P.image_width)
            (P.image_width / ((w : ℚ) / (h : ℚ))))
          P.image_width (P.image_width / ((w : ℚ) / (h : ℚ)))) := by
  refine ⟨fun h => ?_, fun h => ?_, fun assets index w h ha hwh => ?_⟩
  · simp [pageBreakStep, h]
  · simp [pageBreakStep, h]
  · simp [processIndex, ha, hwh]

theorem C2_witness :
    pageBreakStep ⟨0, 0, 100, 100, 80, 0, 5⟩ ⟨0, 25, 0, 1, [], []⟩ 160 =
      { x := 0, y := 0, line_height := 0, page := 1 + 1, placements := [], diags := [] } ∧
    pageBreakStep ⟨0, 0, 100, 100, 80, 0, 5⟩ ⟨0, 25, 0, 1, [], []⟩ 75 =
      ⟨0, 25, 0, 1, [], []⟩ ∧
    processIndex ⟨0, 0, 100, 100, 80, 0, 5⟩ (fun _ => .image 1 2)
        ⟨50, 0, 20, 1, [], []⟩ 0 =
      placeStep ⟨0, 0, 100, 100, 80, 0, 5⟩
        (pageBreakStep ⟨0, 0, 100, 100, 80, 0, 5⟩
          (wrapStep ⟨0, 0, 100, 100, 80, 0, 5⟩ ⟨50, 0, 20, 1, [], []⟩ 80)
          (80 / ((1 : ℚ) / (2 : ℚ))))
        80 (80 / ((1 : ℚ) / (2 : ℚ))) := by
  refine ⟨?_, ?_, ?_⟩
  · exact (C2_page_break_strict_after_wrap ⟨0, 0, 100, 100, 80, 0, 5⟩
      ⟨0, 25, 0, 1, [], []⟩ 160).1 (by norm_num)
  · exact (C2_page_break_strict_after_wrap ⟨0, 0, 100, 100, 80, 0, 5⟩
      ⟨0, 25, 0, 1, [], []⟩ 75).2.1 (by norm_num)
  · exact (C2_page_break_strict_after_wrap ⟨0, 0, 100, 100, 80, 0, 5⟩
      ⟨50, 0, 20, 1, [], []⟩ (80 / ((1 : ℚ) / (2 : ℚ)))).2.2
      (fun _ => .image 1 2) 0 1 2 rfl (by decide)

/-- C3: the parser splits the (stripped) input on `'_'` and tests every
token independently, keeping exactly the non-empty all-digit tokens as
integers in their original order and silently dropping all others; in
particular parsing `"_1_a_2"` yields `[1, 2]`. -/
theorem C3_parser_drops_bad_tokens (s : List Char) :
    parseIndices s = parseTokens (pySplit '_' (pyStrip s)) ∧
    parseIndices "_1_a_2".toList = [1, 2] := by
  refine ⟨?_, by decide⟩
  simpa [parseIndices] using filter_map_eq_parseTokens (pySplit '_' (pyStrip s))

/-- C5: `generate_pdf` yields no byte buffer exactly when no token of the
raw input survives parsing; equivalently, the `EmptyInput` outcome is the
only way the call fails, and any input with at least one valid index
always produces a buffer. -/
theorem C5_empty_input_only_failure (s : List Char) (assets : Nat → AssetResult)
    (P : LayoutParams) :
    generate_pdf s assets P = none ↔ parseIndices s = [] :=
  generate_pdf_eq_none_iff s assets P

theorem C5_witness :
    (generate_pdf "__".toList (fun _ => .missing) ⟨10, 10, 190, 277, 10, 5, 5⟩ = none ↔
      parseIndices "__".toList = []) ∧
    (generate_pdf "".toList (fun _ => .missing) ⟨10, 10, 190, 277, 10, 5, 5⟩ = none ↔
      parseIndices "".toList = []) :=
  ⟨C5_empty_input_only_failure "__".toList (fun _ => .missing) ⟨10, 10, 190, 277, 10, 5, 5⟩,
    C5_empty_input_only_failure "".toList (fun _ => .missing) ⟨10, 10, 190, 277, 10, 5, 5⟩⟩

/-- C6: an index whose asset is missing or unreadable only appends a
diagnostic: the cursor `(x, y, line_height)`, the page, and the emitted
placements are left exactly as they were, and since every parse with at
least one valid index still returns a document, such per-index failures
never abort the run. -/
theorem C6_skip_preserves_state (P : LayoutParams) (assets : Nat → AssetResult)
    (st : EngineState) (index : Nat) :
    (assets index = .missing →
      processIndex P assets st index =
        { st with diags := st.diags ++ [.missingAsset index] }) ∧
    (assets index = .unreadable →
      processIndex P assets st index =
        { st with diags := st.diags ++ [.unreadableAsset index] }) ∧
    (∀ s : List Char, parseIndices s ≠ [] → (generate_pdf s assets P).isSome = true) := by
  refine ⟨fun h => ?_, fun h => ?_, fun s hs => generate_pdf_isSome s assets P hs⟩
  · simp [processIndex, h]
  · simp [processIndex, h]

theorem C6_witness :
    processIndex ⟨10, 10, 190, 277, 10, 5, 5⟩ (fun i => if i = 1 then .missing else .unreadable)
        ⟨33, 44, 7, 2, [], []⟩ 1 =
      { x := 33, y := 44, line_height := 7, page := 2, placements := [],
        diags := [] ++ [.missingAsset 1] } ∧
    processIndex ⟨10, 10, 190, 277, 10, 5, 5⟩ (fun i => if i = 1 then .missing else .unreadable)
        ⟨33, 44, 7, 2, [], []⟩ 2 =
      { x := 33, y := 44, line_height := 7, page := 2, placements := [],
        diags := [] ++ [.unreadableAsset 2] } ∧
    (generate_pdf "_5".toList (fun i => if i = 1 then .missing else .unreadable)
        ⟨10, 10, 190, 277, 10, 5, 5⟩).isSome = true := by
  refine ⟨?_, ?_, ?_⟩
  · exact (C6_skip_preserves_state ⟨10, 10, 190, 277, 10, 5, 5⟩
      (fun i => if i = 1 then .missing else .unreadable) ⟨33, 44, 7, 2, [], []⟩ 1).1 rfl
  · exact (C6_skip_preserves_state ⟨10, 10, 190, 277, 10, 5, 5⟩
      (fun i => if i = 1 then .missing else .unreadable) ⟨33, 44, 7, 2, [], []⟩ 2).2.1 rfl
  · exact (C6_skip_preserves_state ⟨10, 10, 190, 277, 10, 5, 5⟩
      (fun i => if i = 1 then .missing else .unreadable) ⟨33, 44, 7, 2, [], []⟩ 2).2.2
      "_5".toList (by decide)

/-- C4: a successfully read asset of natural size `(w, h)` is always
placed with `renderedWidth = image_width` and
`renderedHeight = image_width * h / w` (the source aspect ratio is
preserved); an image with `h = 0` is skipped as unreadable instead of
raising a division error; and in any full run every emitted placement
has the same width `image_width` — it is never shrunk. -/
theorem C4_fixed_width_aspect_height (P : LayoutParams) (assets : Nat → AssetResult)
    (st : EngineState) (index w h : Nat) :
    (assets index = .image w h → w ≠ 0 → h ≠ 0 →
      ∃ p : Placement,
        (processIndex P assets st index).placements = st.placements ++ [p] ∧
        p.w = P.image_width ∧ p.h = P.image_width * (h : ℚ) / (w : ℚ)) ∧
    (assets index = .image w h → h = 0 →
      processIndex P assets st index =
        { st with diags := st.diags ++ [.unreadableAsset index] }) ∧
    (∀ (s : List Char) (r : EngineState), generate_pdf s assets P = some r →
      ∀ p ∈ r.placements, p.w = P.image_width) := by
  refine ⟨fun ha hw hh => ?_, fun ha hh => ?_, fun s r hr => ?_⟩
  · rw [processIndex_image P assets st index w h ha (by tauto)]
    set A := pageBreakStep P (wrapStep P st P.image_width)
      (P.image_width / ((w : ℚ) / (h : ℚ))) with hA
    refine ⟨⟨A.page, A.x, A.y, P.image_width, P.image_width / ((w : ℚ) / (h : ℚ))⟩,
      ?_, rfl, ?_⟩
    · simp [hA]
    · show P.image_width / ((w : ℚ) / (h : ℚ)) = P.image_width * (h : ℚ) / (w : ℚ)
      rw [div_div_eq_mul_div]
  · simp [processIndex, ha, hh]
  · rw [generate_pdf_eq_some s assets P r hr]
    exact foldl_placements_width P assets (parseIndices s) (initState P)
      (by intro p hp; simp [initState] at hp)

theorem C4_witness :
    (∃ p : Placement,
      (processIndex ⟨0, 0, 100, 1000, 50, 0, 5⟩ (fun _ => .image 4 2)
        (initState ⟨0, 0, 100, 1000, 50, 0, 5⟩) 3).placements =
        (initState ⟨0, 0, 100, 1000, 50, 0, 5⟩).placements ++ [p] ∧
      p.w = (50 : ℚ) ∧ p.h = (50 : ℚ) * ((2 : Nat) : ℚ) / ((4 : Nat) : ℚ)) ∧
    processIndex ⟨0, 0, 100, 1000, 50, 0, 5⟩ (fun _ => .image 5 0)
        (initState ⟨0, 0, 100, 1000, 50, 0, 5⟩) 9 =
      { initState ⟨0, 0, 100, 1000, 50, 0, 5⟩ with diags := [.unreadableAsset 9] } ∧
    (∀ p ∈ (⟨50, 0, 25, 1, [⟨1, 0, 0, 50, 25⟩], []⟩ : EngineState).placements,
      p.w = (50 : ℚ)) := by
  refine ⟨?_, ?_, ?_⟩
  · exact (C4_fixed_width_aspect_height ⟨0, 0, 100, 1000, 50, 0, 5⟩ (fun _ => .image 4 2)
      (initState ⟨0, 0, 100, 1000, 50, 0, 5⟩) 3 4 2).1 rfl (by decide) (by decide)
  · exact (C4_fixed_width_aspect_height ⟨0, 0, 100, 1000, 50, 0, 5⟩ (fun _ => .image 5 0)
      (initState ⟨0, 0, 100, 1000, 50, 0, 5⟩) 9 5 0).2.1 rfl rfl
  · exact (C4_fixed_width_aspect_height ⟨0, 0, 100, 1000, 50, 0, 5⟩ (fun _ => .image 4 2)
      (initState ⟨0, 0, 100, 1000, 50, 0, 5⟩) 3 4 2).2.2 "_3".toList
      ⟨50, 0, 25, 1, [⟨1, 0, 0, 50, 25⟩], []⟩ (by with_unfolding_all decide)

/-- C7: when every parsed index is skipped (all assets missing or
unreadable), the run still succeeds: the result is `some` state that is
an effectively empty single-page document (no placements, page count
still 1) — distinct from the parser's `EmptyInput` failure, which
returns `none`. -/
theorem C7_all_skipped_empty_document (s : List Char) (assets : Nat → AssetResult)
    (P : LayoutParams) (h1 : parseIndices s ≠ [])
    (h2 : ∀ i ∈ parseIndices s, assets i = .missing ∨ assets i = .unreadable) :
    ∃ r : EngineState, generate_pdf s assets P = some r ∧
      r.placements = [] ∧ r.page = 1 := by
  obtain ⟨ds, hds⟩ := foldl_all_skipped P assets (parseIndices s) (initState P) h2
  refine ⟨(parseIndices s).foldl (processIndex P assets) (initState P), ?_, ?_, ?_⟩
  · simp only [generate_pdf]
    rw [if_neg (by simpa [List.isEmpty_iff] using h1)]
  · rw [hds]; rfl
  · rw [hds]; rfl

theorem C7_witness :
    ∃ r : EngineState,
      generate_pdf "_999999".toList (fun _ => .missing) ⟨10, 10, 190, 277, 10, 5, 5⟩ =
        some r ∧ r.placements = [] ∧ r.page = 1 :=
  C7_all_skipped_empty_document "_999999".toList (fun _ => .missing)
    ⟨10, 10, 190, 277, 10, 5, 5⟩ (by decide) (by decide)

/-- C9: the engine terminates in one pass — each index is handled by
exactly one `processIndex` step that emits at most one placement and at
most one new page, so a full run emits at most one placement per index;
and an image whose rendered width exceeds `max_width` is still placed
exactly once, at `x = x_start` and at full width `image_width`, without
shrinking. -/
theorem C9_single_pass_oversized (P : LayoutParams) (assets : Nat → AssetResult)
    (st : EngineState) (index w h : Nat) :
    ((processIndex P assets st index).placements.length ≤ st.placements.length + 1 ∧
      (processIndex P assets st index).page ≤ st.page + 1) ∧
    (∀ (l : List Nat) (st' : EngineState),
      (l.foldl (processIndex P assets) st').placements.length ≤
        st'.placements.length + l.length) ∧
    (assets index = .image w h → w ≠ 0 → h ≠ 0 →
      P.image_width > P.max_width → st.x ≥ P.x_start →
      ∃ p : Placement,
        (processIndex P assets st index).placements = st.placements ++ [p] ∧
        p.x = P.x_start ∧ p.w = P.image_width) := by
  refine ⟨processIndex_length_page P assets st index,
    fun l st' => foldl_length_bound P assets l st', fun ha hw hh hover hx => ?_⟩
  rw [processIndex_image P assets st index w h ha (by tauto)]
  set A := pageBreakStep P (wrapStep P st P.image_width)
    (P.image_width / ((w : ℚ) / (h : ℚ))) with hA
  have hwrap : wrapStep P st P.image_width =
      { st with x := P.x_start, y := st.y + st.line_height + P.v_gap,
                line_height := 0 } := by
    unfold wrapStep; rw [if_pos (by linarith)]
  have hAx : A.x = P.x_start := by
    rcases pageBreakStep_or P (wrapStep P st P.image_width)
      (P.image_width / ((w : ℚ) / (h : ℚ))) with he | he
    · rw [hA, he, hwrap]
    · rw [hA, he]
  exact ⟨⟨A.page, A.x, A.y, P.image_width, P.image_width / ((w : ℚ) / (h : ℚ))⟩,
    by simp [hA], hAx, rfl⟩

theorem dropWhile_append_of_forall (p : Char → Bool) (l₁ l₂ : List Char)
    (h : ∀ c ∈ l₁, p c = true) :
    (l₁ ++ l₂).dropWhile p = l₂.dropWhile p := by
  induction l₁ with
  | nil => rfl
  | cons c cs ih =>
    simp only [List.cons_append, List.dropWhile_cons, h c (List.mem_cons_self c cs),
      if_true]
    exact ih fun d hd => h d (List.mem_cons_of_mem c hd)

theorem dropWhile_eq_nil_of_forall (p : Char → Bool) (l : List Char)
    (h : ∀ c ∈ l, p c = true) : l.dropWhile p = [] := by
  simpa using dropWhile_append_of_forall p l [] h

theorem dropWhile_append_of_ne_nil (p : Char → Bool) (l₁ l₂ : List Char)
    (h : l₁.dropWhile p ≠ []) :
    (l₁ ++ l₂).dropWhile p = l₁.dropWhile p ++ l₂ := by
  induction l₁ with
  | nil => exact absurd rfl h
  | cons c cs ih =>
    rw [List.dropWhile_cons] at h
    by_cases hc : p c = true
    · rw [if_pos hc] at h
      rw [List.cons_append, List.dropWhile_cons, List.dropWhile_cons, if_pos hc,
        if_pos hc]
      exact ih h
    · rw [List.cons_append, List.dropWhile_cons, List.dropWhile_cons, if_neg hc,
        if_neg hc, List.cons_append]

theorem pyStrip_append_left (ws1 s : List Char)
    (h : ∀ c ∈ ws1, pyWhitespaceChar c = true) :
    pyStrip (ws1 ++ s) = pyStrip s := by
  unfold pyStrip
  rw [dropWhile_append_of_forall _ ws1 s h]

theorem pyStrip_append_right (s ws2 : List Char)
    (h : ∀ c ∈ ws2, pyWhitespaceChar c = true) :
    pyStrip (s ++ ws2) = pyStrip s := by
  unfold pyStrip
  by_cases hs : s.dropWhile pyWhitespaceChar = []
  · have hall : ∀ c ∈ s, pyWhitespaceChar c = true := fun c hc =>
      List.dropWhile_eq_nil_iff.mp hs c hc
    have h1 : (s ++ ws2).dropWhile pyWhitespaceChar = [] :=
      dropWhile_eq_nil_of_forall _ _ (by
        intro c hc
        rcases List.mem_append.mp hc with h' | h'
        · exact hall c h'
        · exact h c h')
    rw [hs, h1]
  · rw [dropWhile_append_of_ne_nil _ _ _ hs, List.reverse_append,
      dropWhile_append_of_forall _ ws2.reverse _
        (fun c hc => h c (List.mem_reverse.mp hc))]

theorem C9_witness :
    ∃ p : Placement,
      (processIndex ⟨0, 0, 100, 1000, 200, 0, 5⟩ (fun _ => .image 1 1)
        (initState ⟨0, 0, 100, 1000, 200, 0, 5⟩) 1).placements =
        (initState ⟨0, 0, 100, 1000, 200, 0, 5⟩).placements ++ [p] ∧
      p.x = (0 : ℚ) ∧ p.w = (200 : ℚ) :=
  (C9_single_pass_oversized ⟨0, 0, 100, 1000, 200, 0, 5⟩ (fun _ => .image 1 1)
    (initState ⟨0, 0, 100, 1000, 200, 0, 5⟩) 1 1 1).2.2 rfl (by decide) (by decide)
    (by norm_num) (by norm_num [initState])

/-- C10: the raw input is stripped of leading and trailing whitespace
before the split on `'_'`, so surrounding whitespace never changes the
parsed index sequence, while whitespace attached to an interior token
makes that token non-digit and it is dropped (`"1 _2"` parses to
`[2]`). -/
theorem C10_surrounding_whitespace_stripped (ws1 ws2 s : List Char)
    (h1 : ∀ c ∈ ws1, pyWhitespaceChar c = true)
    (h2 : ∀ c ∈ ws2, pyWhitespaceChar c = true) :
    parseIndices (ws1 ++ s ++ ws2) = parseIndices s ∧
    parseIndices "1 _2".toList = [2] := by
  constructor
  · unfold parseIndices
    rw [List.append_assoc, pyStrip_append_left ws1 (s ++ ws2) h1,
      pyStrip_append_right s ws2 h2]
  · decide

theorem C10_witness :
    parseIndices ("  ".toList ++ "_1_2".toList ++ "  ".toList) =
      parseIndices "_1_2".toList ∧
    parseIndices "1 _2".toList = [2] :=
  C10_surrounding_whitespace_stripped "  ".toList "  ".toList "_1_2".toList
    (by decide) (by decide)

theorem cursorInv_init (P : LayoutParams) : cursorInv P (initState P) := by
  refine ⟨fun _ => ⟨rfl, rfl, rfl⟩, fun q hq => ?_, List.chain'_nil, fun p hp => ?_⟩
  · simp [initState] at hq
  · simp [initState] at hp

theorem cursorInv_place (P : LayoutParams) (st : EngineState) (nh : ℚ)
    (h : cursorInv P st) :
    cursorInv P
      (placeStep P (pageBreakStep P (wrapStep P st P.image_width) nh)
        P.image_width nh) := by
  obtain ⟨hemp, hlast, hchain, hhead⟩ := h
  set A := pageBreakStep P (wrapStep P st P.image_width) nh with hA
  have hApl : A.placements = st.placements := by simp [hA]
  have htri :
      (A.page = st.page ∧ A.x = st.x ∧ A.y = st.y) ∨
      (A.page = st.page ∧ A.x = P.x_start) ∨
      (A.page = st.page + 1 ∧ A.x = P.x_start ∧ A.y = P.y_start) := by
    rcases wrapStep_or P st P.image_width with hw | hw <;>
      rcases pageBreakStep_or P (wrapStep P st P.image_width) nh with hb | hb
    · exact Or.inl (by rw [hA, hb, hw]; exact ⟨rfl, rfl, rfl⟩)
    · exact Or.inr (Or.inr (by rw [hA, hb, hw]; exact ⟨rfl, rfl, rfl⟩))
    · exact Or.inr (Or.inl (by rw [hA, hb, hw]; exact ⟨rfl, rfl⟩))
    · exact Or.inr (Or.inr (by rw [hA, hb]; exact ⟨by rw [hw], rfl, rfl⟩))
  refine ⟨fun h0 => ?_, fun q hq => ?_, ?_, fun p hp => ?_⟩
  · rw [placeStep_placements, hApl] at h0
    exact absurd h0 (by simp)
  · rw [placeStep_placements, hApl, List.getLast?_concat] at hq
    obtain rfl := (Option.some.inj hq)
    exact ⟨rfl, rfl, rfl⟩
  · rw [placeStep_placements, hApl, List.chain'_append]
    refine ⟨hchain, List.chain'_singleton _, fun q hq p' hp' => ?_⟩
    have hp'' : p' = (⟨A.page, A.x, A.y, P.image_width, nh⟩ : Placement) := by
      have := hp'
      simp only [List.head?_cons, Option.mem_def, Option.some.injEq] at this
      exact this.symm
    subst hp''
    obtain ⟨hcx, hcy, hcp⟩ := hlast q hq
    rcases htri with h1 | h2 | h3
    · exact Or.inl ⟨h1.1.trans hcp, h1.2.2.trans hcy, h1.2.1.trans hcx⟩
    · exact Or.inr (Or.inl ⟨h2.1.trans hcp, h2.2⟩)
    · exact Or.inr (Or.inr ⟨h3.1.trans (by rw [hcp]), h3.2.1, h3.2.2⟩)
  · rw [placeStep_placements, hApl] at hp
    cases hplc : st.placements with
    | cons p₀ rest =>
      rw [hplc, List.cons_append, List.head?_cons] at hp
      obtain rfl := (Option.some.inj hp)
      exact hhead p₀ (by rw [hplc, List.head?_cons])
    | nil =>
      rw [hplc, List.nil_append, List.head?_cons] at hp
      obtain rfl := (Option.some.inj hp)
      obtain ⟨hx0, hy0, hpg0⟩ := hemp hplc
      have hxA : A.x = P.x_start := by
        rcases htri with h1 | h2 | h3
        · rw [h1.2.1, hx0]
        · exact h2.2
        · exact h3.2.1
      refine ⟨hxA, fun hW => ?_⟩
      have hnw : wrapStep P st P.image_width = st :=
        wrapStep_of_not_gt P st P.image_width
          (by rw [hx0]; exact not_lt.mpr (add_le_add_left hW P.x_start))
      rcases pageBreakStep_or P (wrapStep P st P.image_width) nh with hb | hb
      · show A.y = P.y_start
        rw [hA, hb, hnw, hy0]
      · show A.y = P.y_start
        rw [hA, hb]

theorem cursorInv_processIndex (P : LayoutParams) (assets : Nat → AssetResult)
    (st : EngineState) (i : Nat) (h : cursorInv P st) :
    cursorInv P (processIndex P assets st i) := by
  cases ha : assets i with
  | missing =>
    simp only [processIndex, ha]
    exact h
  | unreadable =>
    simp only [processIndex, ha]
    exact h
  | image w hh =>
    by_cases hwh : w = 0 ∨ hh = 0
    · simp only [processIndex, ha, if_pos hwh]
      exact h
    · rw [processIndex_image P assets st i w hh ha hwh]
      exact cursorInv_place P st _ h

theorem cursorInv_foldl (P : LayoutParams) (assets : Nat → AssetResult)
    (l : List Nat) (st : EngineState) (h : cursorInv P st) :
    cursorInv P (l.foldl (processIndex P assets) st) := by
  induction l generalizing st with
  | nil => exact h
  | cons i is ih =>
    rw [List.foldl_cons]
    exact ih _ (cursorInv_processIndex P assets st i h)

/-- C8 is refuted by the code: with `x_start = y_start = 0`, `v_gap = 5`
and an image whose rendered width 200 exceeds `max_width = 100`, the
line-wrap fires on the still-empty first row, so the very first
placement of the run — the first row placed on page 1 — lands at
`y = 5 = v_gap`, not at `y = y_start = 0`: `v_gap` has shifted the
first row of a page. -/
theorem C8_counterexample :
    ∃ r : EngineState,
      generate_pdf "_1".toList (fun _ => .image 1 1) ⟨0, 0, 100, 1000, 200, 0, 5⟩ =
        some r ∧
      r.placements.head? = some ⟨1, 0, 5, 200, 200⟩ ∧
      (⟨1, 0, 5, 200, 200⟩ : Placement).y ≠
        (⟨0, 0, 100, 1000, 200, 0, 5⟩ : LayoutParams).y_start :=
  ⟨⟨200, 5, 200, 1, [⟨1, 0, 5, 200, 200⟩], []⟩, by with_unfolding_all decide,
    rfl, by norm_num⟩

/-- C8 (amended): gaps are applied only between elements in the
following sense.  Any two consecutive placements of a run are related
by `rowChain`: the second either continues the row exactly `h_gap`
after the first, or starts a new row on the same page at `x = x_start`
(no `h_gap` before a row's first image), or opens the next page at
exactly `(x_start, y_start)` (no gap before a page's first row).  The
run's first placement is always at `x = x_start`, and — provided
`image_width ≤ max_width`, i.e. excluding the oversized-width wrap of
the counterexample — also at `y = y_start`. -/
theorem C8_gaps_only_between_elements (P : LayoutParams) (assets : Nat → AssetResult)
    (s : List Char) (r : EngineState) (hr : generate_pdf s assets P = some r) :
    List.Chain' (rowChain P) r.placements ∧
    (∀ p, r.placements.head? = some p →
      p.x = P.x_start ∧ (P.image_width ≤ P.max_width → p.y = P.y_start)) := by
  have hinv : cursorInv P r := by
    rw [generate_pdf_eq_some s assets P r hr]
    exact cursorInv_foldl P assets (parseIndices s) (initState P) (cursorInv_init P)
  exact ⟨hinv.2.2.1, hinv.2.2.2⟩

theorem C8_witness :
    List.Chain' (rowChain ⟨0, 0, 100, 1000, 50, 0, 5⟩)
      (⟨100, 0, 50, 1, [⟨1, 0, 0, 50, 50⟩, ⟨1, 50, 0, 50, 50⟩], []⟩ :
        EngineState).placements ∧
    (∀ p, (⟨100, 0, 50, 1, [⟨1, 0, 0, 50, 50⟩, ⟨1, 50, 0, 50, 50⟩], []⟩ :
        EngineState).placements.head? = some p →
      p.x = (⟨0, 0, 100, 1000, 50, 0, 5⟩ : LayoutParams).x_start ∧
      ((⟨0, 0, 100, 1000, 50, 0, 5⟩ : LayoutParams).image_width ≤
          (⟨0, 0, 100, 1000, 50, 0, 5⟩ : LayoutParams).max_width →
        p.y = (⟨0, 0, 100, 1000, 50, 0, 5⟩ : LayoutParams).y_start)) :=
  C8_gaps_only_between_elements ⟨0, 0, 100, 1000, 50, 0, 5⟩ (fun _ => .image 1 1)
    "_1_2".toList ⟨100, 0, 50, 1, [⟨1, 0, 0, 50, 50⟩, ⟨1, 50, 0, 50, 50⟩], []⟩
    (by with_unfolding_all decide)

end HarappanPDF
